import Mathlib

/-!
Verification development for the `ollama-cli` client
(`src/ollama_client.js`).

The JavaScript source is shallowly embedded here:

* JSON values produced by `JSON.parse` (and by `fast-xml-parser`, which
  returns ordinary JS objects/arrays/strings/numbers) are the inductive
  type `Json`; `parseJson` models `JSON.parse` on a list of characters,
  returning `none` exactly where `JSON.parse` throws.
* The NDJSON streaming consumer `callStream` is `runChunks`/`runLines`:
  each chunk is trimmed, split on newlines, nonempty lines are parsed,
  `obj.response` is written when truthy, and a truthy `obj.done` writes
  one newline and returns.
* The buffered consumer `callOnce` is `callOnceOut`.
* The PPTX extractor `extractTextFromPptx` (slide filtering, numeric
  ordinal sort, text-run collection, labelling) and the recursive
  collector `collectText` are embedded over `Json` trees, taking each
  ZIP member's parsed XML tree as given.
* The batch assembler `readFilesCombined` and the slice of `main` that
  decides whether the network is contacted are embedded with an explicit
  event trace (`Ev`), the filesystem and the format-specific extraction
  libraries being parameters.
-/

/-! ### Character-level helpers (JS string primitives) -/

/-- Opening curly brace character. -/
def obrace : Char := Char.ofNat 123

/-- Closing curly brace character. -/
def cbrace : Char := Char.ofNat 125

/-- Whitespace for JS `String.prototype.trim` and the regex class `\s`:
the ECMAScript WhiteSpace and LineTerminator sets, i.e. tab, LF,
vertical tab, form feed, CR, space, NBSP (U+00A0), Ogham space mark
(U+1680), the Zs spaces U+2000..U+200A, the line and paragraph
separators U+2028/U+2029, narrow NBSP (U+202F), medium mathematical
space (U+205F), ideographic space (U+3000) and ZWNBSP (U+FEFF). -/
def isJsWs (c : Char) : Bool :=
  c = ' ' || c = '\t' || c = '\n' || c = '\r' ||
  c = Char.ofNat 0xb || c = Char.ofNat 0xc ||
  c = Char.ofNat 0xa0 || c = Char.ofNat 0x1680 ||
  (Char.ofNat 0x2000 ≤ c && c ≤ Char.ofNat 0x200a) ||
  c = Char.ofNat 0x2028 || c = Char.ofNat 0x2029 || c = Char.ofNat 0x202f ||
  c = Char.ofNat 0x205f || c = Char.ofNat 0x3000 || c = Char.ofNat 0xfeff

/-- JS `String.prototype.trim` on a character list. -/
def jsTrim (l : List Char) : List Char :=
  ((l.dropWhile isJsWs).reverse.dropWhile isJsWs).reverse

/-- JS `String.prototype.trim` on a `String`. -/
def jsTrimStr (s : String) : String :=
  ⟨jsTrim s.data⟩

/-- JS `String.prototype.split(sep)` for a single-character separator:
splitting the empty string yields `[""]`, and separators at the ends
yield empty fragments, exactly as in JS. -/
def splitOnChar (sep : Char) : List Char → List (List Char)
  | [] => [[]]
  | c :: rest =>
    match splitOnChar sep rest with
    | [] => if c = sep then [[], [c]] else [[c]]
    | g :: gs => if c = sep then [] :: g :: gs else (c :: g) :: gs

/-- Numeric value of a list of decimal digit characters (the digits of a
successful `parseInt(_, 10)` / JSON integer part). -/
def natOfDigits (ds : List Char) : Nat :=
  ds.foldl (fun a c => a * 10 + (c.toNat - 48)) 0

/-- Value of one hexadecimal digit, for `\uXXXX` escapes. -/
def hexVal (c : Char) : Option Nat :=
  if '0' ≤ c ∧ c ≤ '9' then some (c.toNat - 48)
  else if 'a' ≤ c ∧ c ≤ 'f' then some (c.toNat - 87)
  else if 'A' ≤ c ∧ c ≤ 'F' then some (c.toNat - 55)
  else none

/-! ### JSON values

JS values as returned by `JSON.parse` (and by `fast-xml-parser`).  A
number is kept as a pair `m, e` denoting `m · 10^e`, which preserves the
exact decimal the grammar accepted (double rounding is irrelevant to the
claims: only truthiness, i.e. comparison with zero, is ever consumed). -/

inductive Json where
  | null : Json
  | bool (b : Bool) : Json
  | num (m : Int) (e : Int) : Json
  | str (s : String) : Json
  | arr (elems : List Json) : Json
  | obj (fields : List (String × Json)) : Json

/-! ### `JSON.parse` -/

/-- JSON insignificant whitespace (RFC 8259: space, tab, LF, CR). -/
def isJsonWs (c : Char) : Bool :=
  c = ' ' || c = '\t' || c = '\n' || c = '\r'

/-- Skip JSON whitespace. -/
def skipWs (l : List Char) : List Char :=
  l.dropWhile isJsonWs

/-- Parse the body of a JSON string after the opening quote, handling
the escape sequences of the JSON grammar; unescaped control characters
are a parse error.  Returns the decoded characters and the rest. -/
def parseStrAux : List Char → Option (List Char × List Char)
  | [] => none
  | c :: rest =>
    if c = '\"' then some ([], rest)
    else if c = '\\' then
      match rest with
      | [] => none
      | e :: rest2 =>
        if e = '\"' ∨ e = '\\' ∨ e = '/' then
          (parseStrAux rest2).map (fun p => (e :: p.1, p.2))
        else if e = 'b' then (parseStrAux rest2).map (fun p => (Char.ofNat 8 :: p.1, p.2))
        else if e = 'f' then (parseStrAux rest2).map (fun p => (Char.ofNat 12 :: p.1, p.2))
        else if e = 'n' then (parseStrAux rest2).map (fun p => ('\n' :: p.1, p.2))
        else if e = 'r' then (parseStrAux rest2).map (fun p => ('\r' :: p.1, p.2))
        else if e = 't' then (parseStrAux rest2).map (fun p => ('\t' :: p.1, p.2))
        else if e = 'u' then
          match rest2 with
          | h1 :: h2 :: h3 :: h4 :: rest3 =>
            match hexVal h1, hexVal h2, hexVal h3, hexVal h4 with
            | some a, some b, some c', some d =>
              (parseStrAux rest3).map
                (fun p => (Char.ofNat (((a * 16 + b) * 16 + c') * 16 + d) :: p.1, p.2))
            | _, _, _, _ => none
          | _ => none
        else none
    else if c.toNat < 32 then none
    else (parseStrAux rest).map (fun p => (c :: p.1, p.2))

/-- Parse a JSON number (`-? int frac? exp?`), returning its decimal
mantissa/exponent and the rest of the input. -/
def parseNumber (l : List Char) : Option ((Int × Int) × List Char) :=
  let (sign, l1) : Int × List Char :=
    match l with
    | c :: rest => if c = '-' then (-1, rest) else (1, l)
    | [] => (1, l)
  match l1 with
  | [] => none
  | c :: rest =>
    if c = '0' then
      afterInt sign 0 rest
    else if c.isDigit then
      let ds := rest.takeWhile Char.isDigit
      afterInt sign (natOfDigits (c :: ds)) (rest.drop ds.length)
    else none
where
  /-- After the integer part: optional fraction, optional exponent. -/
  afterInt (sign : Int) (ip : Nat) (l2 : List Char) : Option ((Int × Int) × List Char) :=
    let (m1, e1, l3) : Nat × Int × List Char :=
      match l2 with
      | '.' :: r => match r.takeWhile Char.isDigit with
        | [] => (ip, 0, '.' :: r)
        | fs => (ip * 10 ^ fs.length + natOfDigits fs, -(fs.length : Int),
                 r.drop fs.length)
      | _ => (ip, 0, l2)
    match l2, l3 with
    | '.' :: _, '.' :: _ => none
    | _, _ =>
      match l3 with
      | c :: r =>
        if c = 'e' ∨ c = 'E' then
          let esign : Int := if r.head? = some '-' then -1 else 1
          let r1 := if r.head? = some '+' ∨ r.head? = some '-' then r.tail else r
          match r1.takeWhile Char.isDigit with
          | [] => none
          | es => some ((sign * m1, e1 + esign * natOfDigits es), r1.drop es.length)
        else some ((sign * m1, e1), l3)
      | [] => some ((sign * m1, e1), l3)

mutual

/-- Parse one JSON value at the head of the input (no leading
whitespace).  `fuel` bounds the recursion depth; `parseJson` supplies
enough for any input. -/
def parseValue : Nat → List Char → Option (Json × List Char)
  | 0, _ => none
  | fuel + 1, l =>
    match l with
    | 'n' :: 'u' :: 'l' :: 'l' :: rest => some (Json.null, rest)
    | 't' :: 'r' :: 'u' :: 'e' :: rest => some (Json.bool true, rest)
    | 'f' :: 'a' :: 'l' :: 's' :: 'e' :: rest => some (Json.bool false, rest)
    | c :: rest =>
      if c = '\"' then
        (parseStrAux rest).map (fun p => (Json.str ⟨p.1⟩, p.2))
      else if c = '[' then
        match skipWs rest with
        | ']' :: rest2 => some (Json.arr [], rest2)
        | rest2 => (parseElems fuel rest2).map (fun p => (Json.arr p.1, p.2))
      else if c = obrace then
        match skipWs rest with
        | d :: rest2 =>
          if d = cbrace then some (Json.obj [], rest2)
          else (parseMembers fuel (d :: rest2)).map (fun p => (Json.obj p.1, p.2))
        | [] => none
      else
        (parseNumber l).map (fun p => (Json.num p.1.1 p.1.2, p.2))
    | [] => none

/-- Parse the elements of a nonempty JSON array (after `[` and
whitespace). -/
def parseElems : Nat → List Char → Option (List Json × List Char)
  | 0, _ => none
  | fuel + 1, l => do
    let (v, r) ← parseValue fuel l
    match skipWs r with
    | ']' :: rest => some ([v], rest)
    | ',' :: rest => do
      let (vs, r2) ← parseElems fuel (skipWs rest)
      some (v :: vs, r2)
    | _ => none

/-- Parse the members of a nonempty JSON object (after the opening
brace and whitespace).  Duplicate keys are kept in order here;
`jget` takes the last one, as `JSON.parse` does. -/
def parseMembers : Nat → List Char → Option (List (String × Json) × List Char)
  | 0, _ => none
  | fuel + 1, l =>
    match l with
    | c :: rest =>
      if c = '\"' then do
        let (k, r) ← parseStrAux rest
        match skipWs r with
        | ':' :: r2 => do
          let (v, r3) ← parseValue fuel (skipWs r2)
          match skipWs r3 with
          | d :: rest2 =>
            if d = cbrace then some ([(⟨k⟩, v)], rest2)
            else if d = ',' then do
              let (kvs, r4) ← parseMembers fuel (skipWs rest2)
              some ((⟨k⟩, v) :: kvs, r4)
            else none
          | [] => none
        | _ => none
      else none
    | [] => none

end

/-- `JSON.parse` on a character list: one JSON text surrounded by
optional whitespace; `none` exactly where `JSON.parse` throws. -/
def parseJson (l : List Char) : Option Json :=
  match parseValue (l.length + 1) (skipWs l) with
  | some (v, rest) => if skipWs rest = [] then some v else none
  | none => none

/-! ### JS property access and truthiness -/

/-- JS property read `v[k]` as used on a `JSON.parse` result: on an
object the last binding of the key wins (duplicate keys in the source
text overwrite); on every other non-null value the property is absent
(`undefined`).  `Json.null` is handled by the caller (access throws). -/
def jget (v : Json) (k : String) : Option Json :=
  match v with
  | Json.obj kvs => ((kvs.filter (fun kv => kv.1 = k)).getLast?).map (·.2)
  | _ => none

/-- JS truthiness of a value. -/
def jsTruthy : Json → Bool
  | Json.null => false
  | Json.bool b => b
  | Json.num m _ => m ≠ 0
  | Json.str s => s ≠ ""
  | Json.arr _ => true
  | Json.obj _ => true

/-- JS truthiness of a possibly-absent (`undefined`) value. -/
def jsTruthyOpt : Option Json → Bool
  | none => false
  | some v => jsTruthy v

/-! ### The streaming consumer `callStream`

`callStream` iterates over chunks of the response body; each chunk is
trimmed and split on newlines, each nonempty line is `JSON.parse`d
inside a `try`: a parse failure is ignored, a truthy `response` is
written to stdout, and a truthy `done` writes one newline and returns
from the whole function.  Property access on a parsed `null` throws and
is likewise swallowed by the `catch`. -/

/-- The value a successfully handled line contributes: `JSON.parse`
succeeds and the result is not `null` (reading `.response` on `null`
throws inside the `try`, so such a line is silently skipped). -/
def lineValue (line : List Char) : Option Json :=
  match parseJson line with
  | some Json.null => none
  | some v => some v
  | none => none

/-- One decoded streaming event: the `response` field if present, and
whether the `done` field was truthy. -/
structure DEvent where
  tokenText : Option Json
  isFinal : Bool

/-- `if (obj.response) process.stdout.write(obj.response)` for one
line's object: a falsy `response` (absent, `''`, `0`, `false`, `null`)
writes nothing; a truthy string is written; a truthy non-string makes
`process.stdout.write` throw `ERR_INVALID_ARG_TYPE` inside the `try`
(`JSON.parse` cannot produce a Buffer or `Uint8Array`), which the
`catch` swallows, skipping the rest of the line's handling — that case
is `none`. -/
def lineAction (j : Json) : Option (List Json) :=
  match jget j "response" with
  | some v =>
    if jsTruthy v then
      match v with
      | Json.str s => some [Json.str s]
      | _ => none
    else some []
  | none => some []

/-- Accumulated observable behaviour of the stream consumer: decoded
events in order, stdout writes in order, and whether a truthy `done`
was reached (the `return`). -/
structure StepOut where
  events : List DEvent
  writes : List Json
  done : Bool

/-- Process a list of candidate lines as the inner loop of `callStream`
does, stopping at the first truthy `done`.  A line is skipped with no
event and no write when its handling throws inside the `try`: parse
failure, property access on a parsed `null`, or a truthy non-string
`response` handed to `process.stdout.write` (see `lineAction`) — in
the last case the `done` check of that line is never reached, so even a
truthy `done` does not terminate the stream.  A decoded event is
produced exactly by a line whose handling completes. -/
def runLines : List (List Char) → StepOut
  | [] => ⟨[], [], false⟩
  | l :: ls =>
    match lineValue l with
    | none => runLines ls
    | some j =>
      match lineAction j with
      | none => runLines ls
      | some ws =>
        let ev : DEvent := ⟨jget j "response", jsTruthyOpt (jget j "done")⟩
        if jsTruthyOpt (jget j "done") then
          ⟨[ev], ws ++ [Json.str "\n"], true⟩
        else
          let r := runLines ls
          ⟨ev :: r.events, ws ++ r.writes, r.done⟩

/-- The candidate lines of one chunk:
`chunk.toString('utf8').trim().split('\n').filter(Boolean)` (the
`if (!text) continue` guard is the empty-list case of the same
computation). -/
def chunkLines (chunk : List Char) : List (List Char) :=
  (splitOnChar '\n' (jsTrim chunk)).filter (· ≠ [])

/-- The whole `for await` loop of `callStream` over the arriving
chunks: a truthy `done` inside a chunk returns immediately, otherwise
the next chunk is awaited. -/
def runChunks : List (List Char) → StepOut
  | [] => ⟨[], [], false⟩
  | c :: cs =>
    let r := runLines (chunkLines c)
    if r.done then r
    else
      let r2 := runChunks cs
      ⟨r.events ++ r2.events, r.writes ++ r2.writes, r2.done⟩

/-! ### The buffered consumer `callOnce`

`callOnce` reads one JSON body and executes
`process.stdout.write((data.response || '').trim() + '\n')`.  A falsy
`response` (absent, `''`, `0`, `false`, `null`) is replaced by `''`; a
truthy non-string has no `.trim` method, so the call throws (caught in
`main`, which exits) and nothing is written — that case is `none`. -/
def callOnceOut (data : Json) : Option String :=
  match jget data "response" with
  | some v =>
    if jsTruthy v then
      match v with
      | Json.str s => some (jsTrimStr s ++ "\n")
      | _ => none
    else some "\n"
  | none => some "\n"

/-! ### JS `String(v)` coercion

Needed only for the `lines.push(String(v))` branch of `collectText`
when a text-run value is not a string.  Number rendering keeps the
exact decimal `m · 10^e` (JS prints the shortest round-trip form of the
double, which agrees on the integer values the XML parser produces). -/

/-- Decimal rendering of `m · 10^e` used by `jsToString` for numbers. -/
def numToString (m : Int) (e : Int) : String :=
  if 0 ≤ e then toString (m * 10 ^ e.toNat)
  else
    let k := (-e).toNat
    let a := m.natAbs
    let ip := a / 10 ^ k
    let fp := a % 10 ^ k
    let fracDigits := (Nat.toDigits 10 (10 ^ k + fp)).drop 1
    (if m < 0 then "-" else "") ++ toString ip ++ "." ++ ⟨fracDigits⟩

mutual

/-- JS `String(v)`. -/
def jsToString : Json → String
  | Json.null => "null"
  | Json.bool b => cond b "true" "false"
  | Json.num m e => numToString m e
  | Json.str s => s
  | Json.arr ns => arrToString ns
  | Json.obj _ => "[object Object]"

/-- JS `Array.prototype.toString`: elements joined with commas, `null`
elements contributing the empty string. -/
def arrToString : List Json → String
  | [] => ""
  | [n] => elemToString n
  | n :: ns => elemToString n ++ "," ++ arrToString ns

/-- One array element inside `Array.prototype.toString`. -/
def elemToString : Json → String
  | Json.null => ""
  | v => jsToString v

end

/-! ### The text-run collector `collectText`

`collectText(node, lines)` in `extractTextFromPptx`: `null` returns,
arrays recurse over their elements, objects walk their keys in
insertion order; a key equal to `'a:t'` pushes the value (a string as
is, any other non-null value through `String(v)`, `null` pushes
nothing) and is not recursed into; every other key is recursed into.
Primitives contribute nothing. -/

/-- What an `'a:t'` key pushes for its value. -/
def collectEmit : Json → List String
  | Json.str s => [s]
  | Json.null => []
  | v => [jsToString v]

mutual

/-- The recursive collector over one node. -/
def collectText : Json → List String
  | Json.null => []
  | Json.bool _ => []
  | Json.num _ _ => []
  | Json.str _ => []
  | Json.arr ns => collectTextArr ns
  | Json.obj kvs => collectTextObj kvs

/-- The collector over the elements of an array node. -/
def collectTextArr : List Json → List String
  | [] => []
  | n :: ns => collectText n ++ collectTextArr ns

/-- The collector over the keys of an object node, in insertion
order. -/
def collectTextObj : List (String × Json) → List String
  | [] => []
  | (k, v) :: kvs =>
    (if k = "a:t" then collectEmit v else collectText v) ++ collectTextObj kvs

end

/-! Specification-side traversal for §4.2 (TextRunCollector), written
from the spec's words: visit every node depth-first left-to-right and,
for every leaf node whose tag equals the identifier `a:t`, append its
scalar value, a missing (`null`) or empty value contributing the empty
string. -/

/-- Scalar value of a text-run leaf per the spec: missing coerces to
the empty string. -/
def scalarValueSpec : Json → String
  | Json.str s => s
  | Json.null => ""
  | v => jsToString v

mutual

/-- Spec-side text-run traversal (§4.2's words). -/
def textRunsSpec : Json → List String
  | Json.null => []
  | Json.bool _ => []
  | Json.num _ _ => []
  | Json.str _ => []
  | Json.arr ns => textRunsSpecArr ns
  | Json.obj kvs => textRunsSpecObj kvs

/-- Spec-side traversal over array elements. -/
def textRunsSpecArr : List Json → List String
  | [] => []
  | n :: ns => textRunsSpec n ++ textRunsSpecArr ns

/-- Spec-side traversal over object fields. -/
def textRunsSpecObj : List (String × Json) → List String
  | [] => []
  | (k, v) :: kvs =>
    (if k = "a:t" then [scalarValueSpec v] else textRunsSpec v) ++ textRunsSpecObj kvs

end

/-- Is this value a string? -/
def isStr : Json → Bool
  | Json.str _ => true
  | _ => false

mutual

/-- Every value stored under an `a:t` key in the tree is a string (the
shape `fast-xml-parser` produces for plain scalar text runs). -/
def scalarRuns : Json → Bool
  | Json.null => true
  | Json.bool _ => true
  | Json.num _ _ => true
  | Json.str _ => true
  | Json.arr ns => scalarRunsArr ns
  | Json.obj kvs => scalarRunsObj kvs

/-- `scalarRuns` over array elements. -/
def scalarRunsArr : List Json → Bool
  | [] => true
  | n :: ns => scalarRuns n && scalarRunsArr ns

/-- `scalarRuns` over object fields. -/
def scalarRunsObj : List (String × Json) → Bool
  | [] => true
  | (k, v) :: kvs =>
    (if k = "a:t" then isStr v else scalarRuns v) && scalarRunsObj kvs

end

/-! ### PPTX slide extraction

`extractTextFromPptx` opens the package, filters the members whose
path starts with `ppt/slides/slide` and ends with `.xml`, sorts them by
the number matched by the regex `slide(\d+)\.xml$` (no match parses as
`'0'`), and for each slide in that order collapses and joins the
collected text runs under a 1-based `Slide` label, joining slides with
blank lines.  A member is taken here with its parsed XML tree (the ZIP
and XML byte layers are the `unzipper`/`XMLParser` collaborators). -/

/-- One ZIP member of the package: its path and its parsed XML tree. -/
structure Member where
  path : String
  tree : Json

/-- JS `String.prototype.startsWith` / `String.prototype.endsWith` on
our strings. -/
def jsStarts (s pre : String) : Bool :=
  pre.data.isPrefixOf s.data

/-- See `jsStarts`. -/
def jsEnds (s suf : String) : Bool :=
  suf.data.isSuffixOf s.data

/-- The slide-member filter predicate of `extractTextFromPptx`. -/
def isSlideMember (f : Member) : Bool :=
  jsStarts f.path "ppt/slides/slide" && jsEnds f.path ".xml"

/-- `parseInt(p.match(/slide(\d+)\.xml$/)?.[1] || '0', 10)`: the
ordinal parsed from the member path.  The regex requires the path to
end in `slide`, one or more digits, then `.xml`; since `e` is not a
digit, the match (if any) captures exactly the maximal trailing digit
run before `.xml`.  No match parses `'0'`. -/
def slideNum (p : String) : Nat :=
  if jsEnds p ".xml" then
    let stemRev := (p.data.take (p.data.length - 4)).reverse
    let dsRev := stemRev.takeWhile Char.isDigit
    if dsRev ≠ [] ∧ "edils".data.isPrefixOf (stemRev.drop dsRev.length) then
      natOfDigits dsRev.reverse
    else 0
  else 0

/-- The comparator `(a, b) => na - nb` used with the (stable) JS
`Array.prototype.sort`: ascending by parsed ordinal. -/
def slideLE (a b : Member) : Prop :=
  slideNum a.path ≤ slideNum b.path

instance : DecidableRel slideLE := fun _ _ => Nat.decLe _ _

instance : IsTotal Member slideLE := ⟨fun _ _ => Nat.le_total _ _⟩

instance : IsTrans Member slideLE := ⟨fun _ _ _ => Nat.le_trans⟩

/-- The filtered, ordinal-sorted slide members (a stable ascending
sort, matching the stable JS `sort` with comparator `na - nb`). -/
def slideMembers (files : List Member) : List Member :=
  List.insertionSort slideLE (files.filter isSlideMember)

/-- JS `s.replace(/\s+/g, ' ')`: every maximal whitespace run becomes
one space. -/
def collapseWs : Bool → List Char → List Char
  | _, [] => []
  | prevWs, c :: rest =>
    if isJsWs c then
      if prevWs then collapseWs true rest
      else ' ' :: collapseWs true rest
    else c :: collapseWs false rest

/-- `s.replace(/\s+/g, ' ').trim()` applied to one collected line. -/
def cleanLine (s : String) : String :=
  ⟨jsTrim (collapseWs false s.data)⟩

/-- The flattened text of one slide:
`lines.map(clean).filter(Boolean).join('\n')`. -/
def slideText (m : Member) : String :=
  String.intercalate "\n" (((collectText m.tree).map cleanLine).filter (· ≠ ""))

/-- One labelled slide block; `i` is the 0-based index in the sorted
sequence. -/
def slideBlock (i : Nat) (m : Member) : String :=
  "\x2d\x2d Slide " ++ toString (i + 1) ++ " \x2d\x2d\n" ++ slideText m

/-- `extractTextFromPptx` on the package's members. -/
def extractTextFromPptx (files : List Member) : String :=
  String.intercalate "\n\n"
    ((slideMembers files).enum.map (fun p => slideBlock p.1 p.2))

/-! ### The batch assembler `readFilesCombined` and the `main` slice

`readAsText` dispatches on the lowercased path suffix; the `.docx`,
`.pdf` and `.pptx` strategies are the external `mammoth`, `pdf-parse`
and ZIP/XML collaborators, passed as functions, and the default branch
is the verbatim UTF-8 read, also passed as a function of the path.

`readFilesCombined` walks the paths in order; a missing file prints
`File not found: <path>` and exits, an extraction failure prints
`Failed to read <path>: <message>` and exits, and otherwise each file
contributes a `### <basename>\n<content>` block, all blocks joined with
a blank line.  `main` performs the network call only after
`readFilesCombined` has returned.  Path resolution against the working
directory is the external `path.resolve` collaborator, so paths are
taken as already resolved. -/

/-- JS `String.prototype.toLowerCase` (ASCII; paths here are ASCII). -/
def jsToLower (s : String) : String :=
  ⟨s.data.map Char.toLower⟩

/-- `readAsText`: extension dispatch on the lowercased path. -/
def readAsText (docxRead pdfRead pptxRead rawRead : String → String) (p : String) : String :=
  let lower := jsToLower p
  if jsEnds lower ".docx" then docxRead p
  else if jsEnds lower ".pdf" then pdfRead p
  else if jsEnds lower ".pptx" then pptxRead p
  else rawRead p

/-- Node `path.basename` for POSIX paths: the last nonempty segment. -/
def basename (p : String) : String :=
  match ((splitOnChar '/' p.data).filter (· ≠ [])).getLast? with
  | some seg => ⟨seg⟩
  | none => ""

/-- Observable actions of the batch slice of `main`: the start of one
file's extraction (`readAsText` being invoked), and the HTTP request. -/
inductive Ev where
  | extractStart (p : String)
  | netCall
deriving DecidableEq

/-- The loop body of `readFilesCombined`, with the existence check
modelled by `fileOk` and the (possibly failing) `readAsText` call by
`extract`; returns the trace of started extractions and either the
fatal error message or the blocks. -/
def readFilesCombinedGo (fileOk : String → Bool) (extract : String → Except String String) :
    List String → List Ev × Except String (List String)
  | [] => ([], Except.ok [])
  | f :: fs =>
    if fileOk f then
      match extract f with
      | Except.ok content =>
        let r := readFilesCombinedGo fileOk extract fs
        (Ev.extractStart f :: r.1,
         r.2.map (fun parts => ("### " ++ basename f ++ "\n" ++ content) :: parts))
      | Except.error e =>
        ([Ev.extractStart f], Except.error ("Failed to read " ++ f ++ ": " ++ e))
    else ([], Except.error ("File not found: " ++ f))

/-- `readFilesCombined`: the blocks joined with `'\n\n'`. -/
def readFilesCombined (fileOk : String → Bool) (extract : String → Except String String)
    (paths : List String) : List Ev × Except String String :=
  let r := readFilesCombinedGo fileOk extract paths
  (r.1, r.2.map (String.intercalate "\n\n"))

/-- The slice of `main` deciding whether the network is reached: the
HTTP request happens only after `readFilesCombined` returned
successfully; a fatal batch error exits first. -/
def runMain (fileOk : String → Bool) (extract : String → Except String String)
    (paths : List String) : List Ev × Except String String :=
  match readFilesCombined fileOk extract paths with
  | (tr, Except.error e) => (tr, Except.error e)
  | (tr, Except.ok s) => (tr ++ [Ev.netCall], Except.ok s)

/-! ### Newline-aligned chunkings (for the amended chunk-boundary claim) -/

/-- Reassemble a chunk from a list of lines, each line followed by a
newline byte. -/
def chunkOfLines : List (List Char) → List Char
  | [] => []
  | l :: ls => l ++ '\n' :: chunkOfLines ls

/-- A line that survives the per-chunk `trim`/`split`/`filter`
processing intact: nonempty, contains no newline, and is stable under
whitespace-stripping at either end. -/
def GoodLine (l : List Char) : Prop :=
  l ≠ [] ∧ '\n' ∉ l ∧ l.dropWhile isJsWs = l ∧ l.reverse.dropWhile isJsWs = l.reverse

instance (l : List Char) : Decidable (GoodLine l) := by
  unfold GoodLine; infer_instance

/-- The lines of a chunk list separated (not terminated) by newlines:
the value `trim` leaves of a newline-terminated packet of good lines. -/
def sepLines : List (List Char) → List Char
  | [] => []
  | [l] => l
  | l :: ls => l ++ '\n' :: sepLines ls

/-- First chunk of the spec's chunk-boundary example. -/
def cexChunk1 : String := "\x7b\"response\":\"Hel"

/-- Second chunk of the spec's chunk-boundary example. -/
def cexChunk2 : String := "lo\",\"done\":false\x7d\n\x7b\"respon"

/-- Third chunk of the spec's chunk-boundary example. -/
def cexChunk3 : String := "se\":\" world\",\"done\":true\x7d\n"

/-- The first complete NDJSON line of the example stream. -/
def helloLine : List Char := "\x7b\"response\":\"Hello\",\"done\":false\x7d".data

/-- The second (final) complete NDJSON line of the example stream. -/
def worldLine : List Char := "\x7b\"response\":\" world\",\"done\":true\x7d".data

/-- The parsed value of `worldLine`. -/
def worldJson : Json := Json.obj [("response", Json.str " world"), ("done", Json.bool true)]

/-- A nested sample tree with text runs inside arrays and objects. -/
def sampleTree : Json :=
  Json.obj [("p:sld", Json.arr
    [Json.obj [("a:t", Json.str "Hello")],
     Json.obj [("other", Json.obj [("a:t", Json.str "World")]), ("a:t", Json.str "!")]])]

/-- The concrete sample slide members used to exercise the PPTX
pipeline: ordinal suffixes 10, 1, 2 in archive order, plus a
non-slide member. -/
def sampleDeck : List Member :=
  [⟨"ppt/slides/slide10.xml", Json.obj [("a:t", Json.str "Gamma")]⟩,
   ⟨"ppt/slides/slide1.xml", Json.obj [("a:t", Json.str "Alpha")]⟩,
   ⟨"ppt/theme/theme1.xml", Json.obj [("a:t", Json.str "nope")]⟩,
   ⟨"ppt/slides/slide2.xml", Json.obj [("a:t", Json.str "  Beta   text ")]⟩]

/-! ## Lemmas -/

theorem runLines_cons_skip (l : List Char) (ls : List (List Char))
    (hlv : lineValue l = none) : runLines (l :: ls) = runLines ls := by
  simp [runLines, hlv]

theorem runLines_cons_throw (l : List Char) (ls : List (List Char)) (j : Json)
    (hlv : lineValue l = some j) (hw : lineAction j = none) :
    runLines (l :: ls) = runLines ls := by
  simp [runLines, hlv, hw]

theorem runLines_cons_final (l : List Char) (ls : List (List Char)) (j : Json)
    (ws : List Json) (hlv : lineValue l = some j) (hw : lineAction j = some ws)
    (hd : jsTruthyOpt (jget j "done") = true) :
    runLines (l :: ls) =
      ⟨[⟨jget j "response", true⟩], ws ++ [Json.str "\n"], true⟩ := by
  simp [runLines, hlv, hw, hd]

theorem runLines_cons_cont (l : List Char) (ls : List (List Char)) (j : Json)
    (ws : List Json) (hlv : lineValue l = some j) (hw : lineAction j = some ws)
    (hd : jsTruthyOpt (jget j "done") = false) :
    runLines (l :: ls) =
      ⟨⟨jget j "response", false⟩ :: (runLines ls).events,
       ws ++ (runLines ls).writes, (runLines ls).done⟩ := by
  simp [runLines, hlv, hw, hd]

theorem runLines_append (xs ys : List (List Char)) :
    runLines (xs ++ ys) =
      if (runLines xs).done then runLines xs
      else ⟨(runLines xs).events ++ (runLines ys).events,
            (runLines xs).writes ++ (runLines ys).writes, (runLines ys).done⟩ := by
  induction xs with
  | nil => simp [runLines]
  | cons l ls ih =>
    rw [List.cons_append]
    cases hlv : lineValue l with
    | none => rw [runLines_cons_skip _ _ hlv, runLines_cons_skip _ _ hlv, ih]
    | some j =>
      cases hw : lineAction j with
      | none => rw [runLines_cons_throw _ _ _ hlv hw, runLines_cons_throw _ _ _ hlv hw, ih]
      | some ws =>
        cases hd : jsTruthyOpt (jget j "done") with
        | true =>
          rw [runLines_cons_final _ _ _ _ hlv hw hd, runLines_cons_final _ _ _ _ hlv hw hd]
          simp
        | false =>
          rw [runLines_cons_cont _ _ _ _ hlv hw hd, runLines_cons_cont _ _ _ _ hlv hw hd, ih]
          by_cases h2 : (runLines ls).done
          · simp [h2]
          · simp [h2, List.append_assoc]

theorem runChunks_done_stop (cs more : List (List Char)) (h : (runChunks cs).done = true) :
    runChunks (cs ++ more) = runChunks cs := by
  induction cs with
  | nil => simp [runChunks] at h
  | cons c cs' ih =>
    simp only [List.cons_append, runChunks]
    by_cases h1 : (runLines (chunkLines c)).done
    · simp [h1]
    · simp only [runChunks, h1, if_false, Bool.false_eq_true] at h ⊢
      simp [ih h]

theorem dropWhile_stable_append (p : Char → Bool) (l r : List Char)
    (h : l.dropWhile p = l) (hne : l ≠ []) : (l ++ r).dropWhile p = l ++ r := by
  rw [List.dropWhile_append, h]
  cases l with
  | nil => exact absurd rfl hne
  | cons c cs => simp

theorem goodLine_trim (l : List Char) (h : GoodLine l) : jsTrim l = l := by
  unfold jsTrim
  rw [h.2.2.1, h.2.2.2, List.reverse_reverse]

theorem dropWhile_chunkOfLines (ls : List (List Char)) (h : ∀ l ∈ ls, GoodLine l) :
    (chunkOfLines ls).dropWhile isJsWs = chunkOfLines ls := by
  cases ls with
  | nil => rfl
  | cons l ls' =>
    have hl := h l (by simp)
    exact dropWhile_stable_append _ _ _ hl.2.2.1 hl.1

theorem chunkOfLines_ne_nil (l : List Char) (ls : List (List Char)) :
    chunkOfLines (l :: ls) ≠ [] := by
  simp [chunkOfLines]

theorem jsTrim_chunkOfLines (ls : List (List Char)) (h : ∀ l ∈ ls, GoodLine l) :
    jsTrim (chunkOfLines ls) = sepLines ls := by
  induction ls with
  | nil => rfl
  | cons l ls' ih =>
    have hl := h l (by simp)
    have hfront : (chunkOfLines (l :: ls')).dropWhile isJsWs = chunkOfLines (l :: ls') :=
      dropWhile_chunkOfLines _ h
    cases ls' with
    | nil =>
      show jsTrim (l ++ ['\n']) = sepLines [l]
      unfold jsTrim
      rw [show chunkOfLines [l] = l ++ ['\n'] from rfl] at hfront
      rw [hfront, List.reverse_append]
      show ((['\n'] ++ l.reverse).dropWhile isJsWs).reverse = l
      rw [List.dropWhile_append]
      simp only [List.dropWhile_cons, List.dropWhile_nil]
      norm_num [isJsWs]
      rw [hl.2.2.2, List.reverse_reverse]
    | cons m ms =>
      have hm := h m (by simp)
      have hrest : ∀ x ∈ m :: ms, GoodLine x := fun x hx => h x (by simp [hx])
      have ihr := ih hrest
      have hrfront : (chunkOfLines (m :: ms)).dropWhile isJsWs = chunkOfLines (m :: ms) :=
        dropWhile_chunkOfLines _ hrest
      -- the tail still contains a non-whitespace character, so stripping
      -- trailing whitespace of the whole packet never reaches `l`
      have hne2 : (chunkOfLines (m :: ms)).reverse.dropWhile isJsWs ≠ [] := by
        intro hnil
        have hall := List.dropWhile_eq_nil_iff.mp hnil
        have : (chunkOfLines (m :: ms)).dropWhile isJsWs = [] := by
          apply List.dropWhile_eq_nil_iff.mpr
          intro x hx
          exact hall x (by simpa using hx)
        rw [hrfront] at this
        exact chunkOfLines_ne_nil _ _ this
      show jsTrim (l ++ '\n' :: chunkOfLines (m :: ms)) = l ++ '\n' :: sepLines (m :: ms)
      unfold jsTrim
      rw [show chunkOfLines (l :: m :: ms) = l ++ '\n' :: chunkOfLines (m :: ms) from rfl] at hfront
      rw [hfront]
      rw [show l ++ '\n' :: chunkOfLines (m :: ms) = (l ++ ['\n']) ++ chunkOfLines (m :: ms) by simp]
      rw [List.reverse_append, List.dropWhile_append]
      have hbranch : ¬((chunkOfLines (m :: ms)).reverse.dropWhile isJsWs).isEmpty = true := by
        simpa [List.isEmpty_iff] using hne2
      rw [if_neg hbranch]
      rw [List.reverse_append]
      have : ((chunkOfLines (m :: ms)).reverse.dropWhile isJsWs).reverse = sepLines (m :: ms) := by
        have := ihr
        unfold jsTrim at this
        rw [hrfront] at this
        exact this
      rw [this]
      simp

theorem splitOnChar_ne_nil (sep : Char) (l : List Char) : splitOnChar sep l ≠ [] := by
  induction l with
  | nil => simp [splitOnChar]
  | cons c cs ih =>
    simp only [splitOnChar]
    cases h : splitOnChar sep cs with
    | nil => exact absurd h ih
    | cons g gs =>
      by_cases hc : c = sep
      · simp [hc]
      · simp [hc]

theorem splitOnChar_no_sep (sep : Char) (l : List Char) (h : sep ∉ l) :
    splitOnChar sep l = [l] := by
  induction l with
  | nil => rfl
  | cons c cs ih =>
    have hc : c ≠ sep := fun hh => h (by simp [hh])
    have ihr : splitOnChar sep cs = [cs] := ih (fun hh => h (by simp [hh]))
    simp [splitOnChar, ihr, hc]

theorem splitOnChar_append_sep (sep : Char) (l r : List Char) (h : sep ∉ l) :
    splitOnChar sep (l ++ sep :: r) = l :: splitOnChar sep r := by
  induction l with
  | nil =>
    simp only [List.nil_append, splitOnChar]
    cases hs : splitOnChar sep r with
    | nil => exact absurd hs (splitOnChar_ne_nil sep r)
    | cons g gs => simp
  | cons c cs ih =>
    have hc : c ≠ sep := fun hh => h (by simp [hh])
    have ihr := ih (fun hh => h (by simp [hh]))
    simp only [List.cons_append, splitOnChar, List.append_eq]
    rw [ihr]
    simp [hc]

theorem splitOnChar_sepLines (ls : List (List Char)) (h : ∀ l ∈ ls, '\n' ∉ l)
    (hne : ls ≠ []) : splitOnChar '\n' (sepLines ls) = ls := by
  induction ls with
  | nil => exact absurd rfl hne
  | cons l ls' ih =>
    cases ls' with
    | nil => exact splitOnChar_no_sep '\n' l (h l (by simp))
    | cons m ms =>
      show splitOnChar '\n' (l ++ '\n' :: sepLines (m :: ms)) = l :: m :: ms
      rw [splitOnChar_append_sep '\n' _ _ (h l (by simp))]
      rw [ih (fun x hx => h x (by simp [hx])) (by simp)]

theorem chunkLines_chunkOfLines (ls : List (List Char)) (h : ∀ l ∈ ls, GoodLine l) :
    chunkLines (chunkOfLines ls) = ls := by
  cases ls with
  | nil => rfl
  | cons l ls' =>
    unfold chunkLines
    rw [jsTrim_chunkOfLines _ h]
    rw [splitOnChar_sepLines _ (fun x hx => (h x hx).2.1) (by simp)]
    apply List.filter_eq_self.mpr
    intro a ha
    simpa using (h a ha).1

theorem runChunks_singleton (c : List Char) : runChunks [c] = runLines (chunkLines c) := by
  simp only [runChunks]
  by_cases h1 : (runLines (chunkLines c)).done
  · simp [h1]
  · cases hr : runLines (chunkLines c) with
    | mk ev wr dn =>
      rw [hr] at h1
      simp at h1
      simp [h1]

theorem runChunks_map_chunkOfLines (gs : List (List (List Char)))
    (h : ∀ l ∈ gs.flatten, GoodLine l) :
    runChunks (gs.map chunkOfLines) = runLines gs.flatten := by
  induction gs with
  | nil => rfl
  | cons g gs' ih =>
    have hg : ∀ l ∈ g, GoodLine l := fun l hl => h l (by simp [hl])
    have hrest : ∀ l ∈ gs'.flatten, GoodLine l := fun l hl => h l (by simp [hl])
    show runChunks (chunkOfLines g :: gs'.map chunkOfLines) = runLines (g ++ gs'.flatten)
    simp only [runChunks]
    rw [chunkLines_chunkOfLines g hg, ih hrest, runLines_append]

/-! ## Claim theorems -/

/-- Claim C1, counterexample: the decoder is NOT chunk-boundary
invariant.  Feeding the spec's own three-chunk split yields no events
at all (each fragment line fails `JSON.parse` and is silently dropped),
whereas the same bytes in one chunk yield the two expected events; in
particular the split does not yield the two events the claim
promises. -/
theorem callStream_chunk_invariance_cex :
    (runChunks [cexChunk1.data, cexChunk2.data, cexChunk3.data]).events = [] ∧
    (runChunks [(cexChunk1 ++ cexChunk2 ++ cexChunk3).data]).events =
      [⟨some (Json.str "Hello"), false⟩, ⟨some (Json.str " world"), true⟩] ∧
    (runChunks [cexChunk1.data, cexChunk2.data, cexChunk3.data]).events ≠
      [⟨some (Json.str "Hello"), false⟩, ⟨some (Json.str " world"), true⟩] :=
  ⟨rfl, rfl, fun h => List.noConfusion h⟩

/-- Claim C1, amended: there is no pending buffer, so invariance holds
only for newline-aligned chunkings.  For every grouping of complete,
whitespace-stable, newline-free lines into newline-terminated chunks,
the decoder's entire observable behaviour (events, writes, termination)
equals that of the unsplit stream. -/
theorem callStream_newline_aligned_invariance (gs : List (List (List Char)))
    (h : ∀ l ∈ gs.flatten, GoodLine l) :
    runChunks (gs.map chunkOfLines) = runChunks [chunkOfLines gs.flatten] := by
  rw [runChunks_map_chunkOfLines gs h, runChunks_singleton, chunkLines_chunkOfLines _ h]

/-- Witness for `callStream_newline_aligned_invariance` at the example
stream delivered one line per chunk. -/
theorem callStream_newline_aligned_invariance_witness :
    (∀ l ∈ ([[helloLine], [worldLine]] : List (List (List Char))).flatten, GoodLine l) ∧
    runChunks ([[helloLine], [worldLine]].map chunkOfLines) =
      runChunks [chunkOfLines ([[helloLine], [worldLine]] : List (List (List Char))).flatten] :=
  ⟨by decide, callStream_newline_aligned_invariance [[helloLine], [worldLine]] (by decide)⟩

/-- Claim C2, counterexample: a malformed line followed by the valid
JSON line with truthy `done` `\x7b"response":true,"done":true\x7d` does
NOT reach the terminal state and produces no event: the truthy
non-string `response` makes `process.stdout.write` throw inside the
`try`, the `catch` swallows it, and the `done` check of that line is
never executed. -/
theorem callStream_malformed_resilience_cex :
    (runChunks ["\x7boops\n\x7b\"response\":true,\"done\":true\x7d".data]).done = false ∧
    (runChunks ["\x7boops\n\x7b\"response\":true,\"done\":true\x7d".data]).events = [] ∧
    (runChunks ["\x7boops\n\x7b\"response\":true,\"done\":true\x7d".data]).writes = [] :=
  ⟨rfl, rfl, rfl⟩

/-- Claim C2, amended: a chunk whose candidate lines are one malformed
line followed by one valid line with truthy `done` — whose handling
completes, i.e. whose `response` is absent, falsy, or a string
(`lineAction` succeeds; the transport contract's shape) — yields no
event and no failure for the malformed line, still yields the valid
line's event, and reaches the terminal state. -/
theorem callStream_malformed_line_resilience (cs m v : List Char) (j : Json)
    (ws : List Json) (hsplit : chunkLines cs = [m, v]) (hm : lineValue m = none)
    (hv : lineValue v = some j) (hw : lineAction j = some ws)
    (hd : jsTruthyOpt (jget j "done") = true) :
    (runChunks [cs]).events = [⟨jget j "response", true⟩] ∧ (runChunks [cs]).done = true := by
  rw [runChunks_singleton, hsplit, runLines_cons_skip _ _ hm,
    runLines_cons_final _ _ _ _ hv hw hd]
  exact ⟨rfl, rfl⟩

/-- Witness for `callStream_malformed_line_resilience` on the byte
stream `\x7boops` + newline + a valid final event line. -/
theorem callStream_malformed_line_resilience_witness :
    (runChunks ["\x7boops\n\x7b\"response\":\"ok\",\"done\":true\x7d".data]).events =
      [⟨some (Json.str "ok"), true⟩] ∧
    (runChunks ["\x7boops\n\x7b\"response\":\"ok\",\"done\":true\x7d".data]).done = true :=
  callStream_malformed_line_resilience _ ("\x7boops".data)
    ("\x7b\"response\":\"ok\",\"done\":true\x7d".data)
    (Json.obj [("response", Json.str "ok"), ("done", Json.bool true)])
    [Json.str "ok"] rfl rfl rfl rfl rfl

/-- Claim C3: once a decoded event with truthy `done` is produced —
i.e. a line parses and its handling completes (`lineAction` succeeds;
a truthy non-string `response` instead throws at the write, produces
no event and is skipped) — the consumer writes exactly one trailing
newline and processes nothing further: neither the remaining lines of
the stream nor any further chunks. -/
theorem callStream_terminal_event_stops :
    (∀ (pre : List (List Char)) (l : List Char) (rest : List (List Char)) (j : Json)
      (ws : List Json),
      (runLines pre).done = false → lineValue l = some j → lineAction j = some ws →
      jsTruthyOpt (jget j "done") = true →
      runLines (pre ++ l :: rest) =
        ⟨(runLines pre).events ++ [⟨jget j "response", true⟩],
         (runLines pre).writes ++ (ws ++ [Json.str "\n"]), true⟩) ∧
    (∀ cs more : List (List Char), (runChunks cs).done = true →
      runChunks (cs ++ more) = runChunks cs) := by
  constructor
  · intro pre l rest j ws hpre hl hw hd
    rw [runLines_append, runLines_cons_final _ _ _ _ hl hw hd]
    simp [hpre]
  · exact runChunks_done_stop

/-- Witness for `callStream_terminal_event_stops`: a final line stops
line processing (a later final line is never decoded) and a terminal
chunk stops chunk processing. -/
theorem callStream_terminal_event_stops_witness :
    runLines ([helloLine] ++ worldLine :: ["\x7b\"response\":\"LOST\",\"done\":true\x7d".data]) =
      ⟨(runLines [helloLine]).events ++ [⟨some (Json.str " world"), true⟩],
       (runLines [helloLine]).writes ++ ([Json.str " world"] ++ [Json.str "\n"]), true⟩ ∧
    runChunks ([chunkOfLines [worldLine]] ++ [cexChunk1.data]) =
      runChunks [chunkOfLines [worldLine]] :=
  ⟨callStream_terminal_event_stops.1 [helloLine] worldLine _ worldJson
     [Json.str " world"] rfl rfl rfl rfl,
   callStream_terminal_event_stops.2 _ _ rfl⟩

/-- Claim C10: a final event whose `response` is a nonempty string has
that string written before the single trailing newline; a final event
with no `response` field writes exactly the newline. -/
theorem callStream_final_token_before_newline (l : List Char) (j : Json) (s : String)
    (hl : lineValue l = some j) (hd : jsTruthyOpt (jget j "done") = true) :
    (jget j "response" = some (Json.str s) → s ≠ "" →
      (runLines [l]).writes = [Json.str s, Json.str "\n"]) ∧
    (jget j "response" = none → (runLines [l]).writes = [Json.str "\n"]) := by
  constructor
  · intro hr hs
    have hw : lineAction j = some [Json.str s] := by
      simp [lineAction, hr, jsTruthy, hs]
    rw [runLines_cons_final _ _ _ _ hl hw hd]
    rfl
  · intro hr
    have hw : lineAction j = some [] := by
      simp [lineAction, hr]
    rw [runLines_cons_final _ _ _ _ hl hw hd]
    rfl

/-- Witness for `callStream_final_token_before_newline` at the final
example line (token then newline) and at a tokenless final line (just
the newline). -/
theorem callStream_final_token_before_newline_witness :
    (runLines [worldLine]).writes = [Json.str " world", Json.str "\n"] ∧
    (runLines ["\x7b\"done\":true\x7d".data]).writes = [Json.str "\n"] :=
  ⟨(callStream_final_token_before_newline worldLine worldJson " world" rfl rfl).1 rfl
     (by decide),
   (callStream_final_token_before_newline ("\x7b\"done\":true\x7d".data)
     (Json.obj [("done", Json.bool true)]) "" rfl rfl).2 rfl⟩

/-- Claim C4: slides are ordered by the ordinal parsed from the numeric
suffix of the member path (missing/unparsable defaults to 0), ascending
numerically, and each slide is labelled by its 1-based position in the
sorted sequence: the sorted members are sorted and are a permutation of
the filtered members; suffixes 1, 2, 10 parse numerically (and `slideX`
parses as 0); and the sample deck with archive order 10, 1, 2 is
labelled `Slide 1..3` in numeric order 1, 2, 10. -/
theorem extractTextFromPptx_order_and_labels :
    (∀ files : List Member, List.Sorted slideLE (slideMembers files)) ∧
    (∀ files : List Member, List.Perm (slideMembers files) (files.filter isSlideMember)) ∧
    (slideNum "ppt/slides/slide1.xml" = 1 ∧ slideNum "ppt/slides/slide2.xml" = 2 ∧
     slideNum "ppt/slides/slide10.xml" = 10 ∧ slideNum "ppt/slides/slideX.xml" = 0) ∧
    extractTextFromPptx sampleDeck =
      "\x2d\x2d Slide 1 \x2d\x2d\nAlpha\n\n\x2d\x2d Slide 2 \x2d\x2d\nBeta text\n\n" ++
        "\x2d\x2d Slide 3 \x2d\x2d\nGamma" :=
  ⟨fun _ => List.sorted_insertionSort slideLE _,
   fun files => List.perm_insertionSort slideLE (files.filter isSlideMember),
   ⟨rfl, rfl, rfl, rfl⟩, rfl⟩

theorem readFilesCombinedGo_missing (fileOk : String → Bool)
    (extract : String → Except String String) (pre : List String) (p : String)
    (post : List String) (hok : ∀ q ∈ pre, fileOk q = true)
    (hex : ∀ q ∈ pre, ∃ c, extract q = Except.ok c) (hp : fileOk p = false) :
    readFilesCombinedGo fileOk extract (pre ++ p :: post) =
      (pre.map Ev.extractStart, Except.error ("File not found: " ++ p)) := by
  induction pre with
  | nil => simp [readFilesCombinedGo, hp]
  | cons q pre' ih =>
    have hq : fileOk q = true := hok q (by simp)
    obtain ⟨c, hc⟩ := hex q (by simp)
    have ihr := ih (fun x hx => hok x (by simp [hx])) (fun x hx => hex x (by simp [hx]))
    simp only [List.cons_append, readFilesCombinedGo, hq, if_true, hc, List.append_eq]
    rw [ihr]
    simp [Except.map]

theorem readFilesCombinedGo_ok (fileOk : String → Bool)
    (extract : String → Except String String) (paths : List String)
    (hok : ∀ q ∈ paths, fileOk q = true)
    (hex : ∀ q ∈ paths, ∃ c, extract q = Except.ok c) :
    readFilesCombinedGo fileOk extract paths =
      (paths.map Ev.extractStart,
       Except.ok (paths.map
         (fun q => "### " ++ basename q ++ "\n" ++ ((extract q).toOption.getD "")))) := by
  induction paths with
  | nil => rfl
  | cons q paths' ih =>
    have hq : fileOk q = true := hok q (by simp)
    obtain ⟨c, hc⟩ := hex q (by simp)
    have ihr := ih (fun x hx => hok x (by simp [hx])) (fun x hx => hex x (by simp [hx]))
    simp only [readFilesCombinedGo, hq, if_true, hc]
    rw [ihr]
    simp [hc, Except.toOption, Except.map]

/-- Claim C5: a path list containing a missing file (here, with every
earlier file present and readable) makes the batch fail with the
message naming that path; extraction is started only for the files
before it — none for the missing file or any later one — and the
network is never contacted. -/
theorem readFilesCombined_missing_aborts (fileOk : String → Bool)
    (extract : String → Except String String) (pre : List String) (p : String)
    (post : List String) (hok : ∀ q ∈ pre, fileOk q = true)
    (hex : ∀ q ∈ pre, ∃ c, extract q = Except.ok c) (hp : fileOk p = false) :
    runMain fileOk extract (pre ++ p :: post) =
      (pre.map Ev.extractStart, Except.error ("File not found: " ++ p)) ∧
    Ev.netCall ∉ (runMain fileOk extract (pre ++ p :: post)).1 := by
  have hgo := readFilesCombinedGo_missing fileOk extract pre p post hok hex hp
  have hmain : runMain fileOk extract (pre ++ p :: post) =
      (pre.map Ev.extractStart, Except.error ("File not found: " ++ p)) := by
    unfold runMain readFilesCombined
    rw [hgo]
    simp [Except.map]
  refine ⟨hmain, ?_⟩
  rw [hmain]
  simp

/-- Witness for `readFilesCombined_missing_aborts`: `a.txt` exists,
`missing.docx` does not, `c.txt` follows. -/
theorem readFilesCombined_missing_aborts_witness :
    runMain (fun q => q != "missing.docx") (fun q => Except.ok ("[" ++ q ++ "]"))
        ["a.txt", "missing.docx", "c.txt"] =
      ([Ev.extractStart "a.txt"], Except.error "File not found: missing.docx") ∧
    Ev.netCall ∉ (runMain (fun q => q != "missing.docx")
        (fun q => Except.ok ("[" ++ q ++ "]")) ["a.txt", "missing.docx", "c.txt"]).1 :=
  readFilesCombined_missing_aborts (fun q => q != "missing.docx")
    (fun q => Except.ok ("[" ++ q ++ "]")) ["a.txt"] "missing.docx" ["c.txt"]
    (by decide) (fun q _ => ⟨"[" ++ q ++ "]", rfl⟩) (by decide)

/-- Claim C6: for existing, readable files the combined prompt is the
concatenation of one `### basename` + newline + body block per file,
joined by a blank line, in exactly the given order. -/
theorem readFilesCombined_blocks (fileOk : String → Bool)
    (extract : String → Except String String) (paths : List String)
    (hok : ∀ q ∈ paths, fileOk q = true)
    (hex : ∀ q ∈ paths, ∃ c, extract q = Except.ok c) :
    (readFilesCombined fileOk extract paths).2 =
      Except.ok (String.intercalate "\n\n" (paths.map
        (fun q => "### " ++ basename q ++ "\n" ++ ((extract q).toOption.getD "")))) := by
  unfold readFilesCombined
  rw [readFilesCombinedGo_ok fileOk extract paths hok hex]
  simp [Except.map]

/-- Witness for `readFilesCombined_blocks`: `[docs/a.txt, docs/b.docx]`
produces the `### a.txt` block before the `### b.docx` block. -/
theorem readFilesCombined_blocks_witness :
    (readFilesCombined (fun _ => true) (fun q => Except.ok ("B:" ++ q))
        ["docs/a.txt", "docs/b.docx"]).2 =
      Except.ok ("### a.txt\nB:docs/a.txt\n\n### b.docx\nB:docs/b.docx") :=
  readFilesCombined_blocks (fun _ => true) (fun q => Except.ok ("B:" ++ q))
    ["docs/a.txt", "docs/b.docx"] (by decide) (fun q _ => ⟨"B:" ++ q, rfl⟩)

/-- Claim C7: a path whose lowercased form ends in none of `.docx`,
`.pdf`, `.pptx` is read by the verbatim UTF-8 branch: the extracted
body is exactly what the raw read returns for that path. -/
theorem readAsText_plain_identity (docxRead pdfRead pptxRead rawRead : String → String)
    (p : String) (h1 : jsEnds (jsToLower p) ".docx" = false)
    (h2 : jsEnds (jsToLower p) ".pdf" = false)
    (h3 : jsEnds (jsToLower p) ".pptx" = false) :
    readAsText docxRead pdfRead pptxRead rawRead p = rawRead p := by
  simp [readAsText, h1, h2, h3]

/-- Witness for `readAsText_plain_identity` at an upper-cased `.MD`
path. -/
theorem readAsText_plain_identity_witness :
    readAsText (fun _ => "DOCX") (fun _ => "PDF") (fun _ => "PPTX")
      (fun q => "RAW:" ++ q) "Notes.MD" = "RAW:Notes.MD" :=
  readAsText_plain_identity (fun _ => "DOCX") (fun _ => "PDF") (fun _ => "PPTX")
    (fun q => "RAW:" ++ q) "Notes.MD" rfl rfl rfl

mutual

theorem collectText_eq_spec (t : Json) (h : scalarRuns t = true) :
    collectText t = textRunsSpec t := by
  cases t with
  | null => rfl
  | bool b => rfl
  | num m e => rfl
  | str s => rfl
  | arr ns =>
    have hh : scalarRunsArr ns = true := h
    simpa [collectText, textRunsSpec] using collectTextArr_eq_spec ns hh
  | obj kvs =>
    have hh : scalarRunsObj kvs = true := h
    simpa [collectText, textRunsSpec] using collectTextObj_eq_spec kvs hh

theorem collectTextArr_eq_spec (ns : List Json) (h : scalarRunsArr ns = true) :
    collectTextArr ns = textRunsSpecArr ns := by
  cases ns with
  | nil => rfl
  | cons n ns' =>
    have hh := Bool.and_eq_true_iff.mp h
    simp [collectTextArr, textRunsSpecArr, collectText_eq_spec n hh.1,
      collectTextArr_eq_spec ns' hh.2]

theorem collectTextObj_eq_spec (kvs : List (String × Json)) (h : scalarRunsObj kvs = true) :
    collectTextObj kvs = textRunsSpecObj kvs := by
  cases kvs with
  | nil => rfl
  | cons kv kvs' =>
    obtain ⟨k, v⟩ := kv
    have hh := Bool.and_eq_true_iff.mp h
    have ihr := collectTextObj_eq_spec kvs' hh.2
    by_cases hk : k = "a:t"
    · have hv : isStr v = true := by simpa [hk] using hh.1
      cases v with
      | str s => simp [collectTextObj, textRunsSpecObj, hk, collectEmit, scalarValueSpec, ihr]
      | null => simp [isStr] at hv
      | bool b => simp [isStr] at hv
      | num m e => simp [isStr] at hv
      | arr ns => simp [isStr] at hv
      | obj f => simp [isStr] at hv
    · have hv : scalarRuns v = true := by simpa [hk] using hh.1
      simp [collectTextObj, textRunsSpecObj, hk, collectText_eq_spec v hv, ihr]

end

/-- Claim C8: on every tree whose text-run values are scalar strings
(the shape the XML parser gives plain text runs), the collector equals
the spec's depth-first left-to-right traversal — every `a:t` leaf's
scalar value is appended in document order and non-text nodes are
traversed but not emitted — and an empty text value contributes the
empty string, not an error. -/
theorem collectText_contract :
    (∀ t : Json, scalarRuns t = true → collectText t = textRunsSpec t) ∧
    collectText (Json.obj [("a:t", Json.str "")]) = [""] :=
  ⟨fun t h => collectText_eq_spec t h, rfl⟩

/-- Witness for `collectText_contract` on a nested sample tree. -/
theorem collectText_contract_witness :
    scalarRuns sampleTree = true ∧ collectText sampleTree = textRunsSpec sampleTree :=
  ⟨rfl, collectText_contract.1 sampleTree rfl⟩

/-- Claim C9: the buffered consumer writes the `response` string
trimmed of leading and trailing whitespace followed by exactly one
newline, and writes just the newline when the field is absent. -/
theorem callOnce_trimmed_response (data : Json) (s : String) :
    (jget data "response" = some (Json.str s) →
      callOnceOut data = some (jsTrimStr s ++ "\n")) ∧
    (jget data "response" = none → callOnceOut data = some "\n") := by
  constructor
  · intro hr
    unfold callOnceOut
    rw [hr]
    by_cases hs : s = ""
    · subst hs
      simp [jsTruthy, jsTrimStr, jsTrim]
    · simp [jsTruthy, hs]
  · intro hr
    unfold callOnceOut
    rw [hr]

/-- Witness for `callOnce_trimmed_response`: a padded response is
trimmed and terminated; an object without `response` yields only the
newline. -/
theorem callOnce_trimmed_response_witness :
    callOnceOut (Json.obj [("response", Json.str "  hi ")]) = some "hi\n" ∧
    callOnceOut (Json.obj [("model", Json.str "m")]) = some "\n" :=
  ⟨(callOnce_trimmed_response (Json.obj [("response", Json.str "  hi ")]) "  hi ").1 rfl,
   (callOnce_trimmed_response (Json.obj [("model", Json.str "m")]) "").2 rfl⟩
